import Mathlib

/-!
Verification development for `waterbutler/server/utils.py`:
the `Range`-header parser `parse_request_range` and the streaming relay
`UtilMixin.write_stream`.

The parser's syntactic stage (tornado's `httputil._parse_request_range`)
and the I/O collaborators (upstream stream, downstream sink, `settings`)
are not part of the repository source; they are modelled from the spec
at their interface boundary.  Everything else is translated directly from
the Python source.
-/

namespace WB

/-! ## Range header parsing -/

/-- Decimal digit test, as used by integer parsing of the header parts. -/
def isDigitChar (c : Char) : Bool := '0' ≤ c && c ≤ '9'

/-- Numeric value of a decimal digit character. -/
def digitVal (c : Char) : Nat := c.toNat - '0'.toNat

/-- Accumulating decimal parse of a character list; fails on any non-digit. -/
def parseNatAux : List Char → Nat → Option Nat
  | [], acc => some acc
  | c :: cs, acc =>
    if isDigitChar c then parseNatAux cs (acc * 10 + digitVal c) else none

/-- Parse one optional integer part of `bytes=<start>-<end>`:
an empty part is an absent value (`some none`), a nonempty all-digit part is
its value, and anything else is a syntax failure (`none`). -/
def parsePart (cs : List Char) : Option (Option Int) :=
  match cs with
  | [] => some none
  | _ =>
    match parseNatAux cs 0 with
    | some n => some (some (n : Int))
    | none => none

/-- Split a character list at the first `'-'`; fails when no dash occurs. -/
def splitAtFirstDash : List Char → Option (List Char × List Char)
  | [] => none
  | c :: cs =>
    if c = '-' then some ([], cs)
    else
      match splitAtFirstDash cs with
      | some (l, r) => some (c :: l, r)
      | none => none

/-- Strip the literal unit marker `bytes=` from the front of the header. -/
def stripBytesEq (cs : List Char) : Option (List Char) :=
  match cs with
  | 'b' :: 'y' :: 't' :: 'e' :: 's' :: '=' :: rest => some rest
  | _ => none

/-- Modelled from the spec: the syntactic stage of the range parser, on the
header's characters (tornado's `httputil._parse_request_range` is not in the
repository source).  It recognizes the `bytes=<start>-<end>` grammar with
optional decimal integer parts; an unrecognized unit, a missing dash, or a
non-integer part (this covers multi-range headers such as `bytes=0-1,5-6`)
yields no range; a present end is returned as an *exclusive* upper bound
(`end + 1`); a missing part is returned as absent. -/
def parseRangeChars (cs : List Char) : Option (Option Int × Option Int) :=
  match stripBytesEq cs with
  | none => none
  | some value =>
    match splitAtFirstDash value with
    | none => none
    | some (sa, sb) =>
      match parsePart sa, parsePart sb with
      | some st, some en => some (st, en.map (· + 1))
      | _, _ => none

/-- Modelled from the spec: the syntactic stage on the raw header value,
where an absent header yields no range. -/
def parseRequestRangeSyntactic (header : Option String) :
    Option (Option Int × Option Int) :=
  match header with
  | none => none
  | some s => parseRangeChars s.data

/-- Result surface of `parse_request_range`: the Python function returns
`None`, returns a `(start, end)` tuple, or raises `InvalidHeaderError`. -/
inductive RangeResult where
  | noRange : RangeResult
  | ok (start : Int) (stop : Option Int) : RangeResult
  | invalidHeaderError (msg : String) : RangeResult
deriving DecidableEq, Repr

/-- Rendering of the header value interpolated into the error message
(`'...: {}'.format(range_header)`). -/
def formatRangeHeader : Option String → String
  | none => "None"
  | some s => s

/-- Translation of `parse_request_range` from `waterbutler/server/utils.py`:
wraps the syntactic stage, returns `None` when it yields no range or when
both parts are absent, raises `InvalidHeaderError` when the start is absent
or negative, converts a present exclusive end to an inclusive index by
subtracting one, and raises when that end is less than the start. -/
def parse_request_range (range_header : Option String) : RangeResult :=
  match parseRequestRangeSyntactic range_header with
  | none => .noRange
  | some (start?, end?) =>
    match start?, end? with
    | none, none => .noRange
    | none, some _ =>
      .invalidHeaderError
        ("Unsupported Range header format: " ++ formatRangeHeader range_header)
    | some start, end? =>
      if start < 0 then
        .invalidHeaderError
          ("Unsupported Range header format: " ++ formatRangeHeader range_header)
      else
        match end? with
        | some e =>
          if e - 1 < start then
            .invalidHeaderError
              ("Unsupported Range header format: " ++ formatRangeHeader range_header)
          else .ok start (some (e - 1))
        | none => .ok start none

/-! ## Streaming relay (`UtilMixin.write_stream`) -/

/-- Python exceptions as seen by the relay: `tornado.iostream.StreamClosedError`
is the one exception class the `except` clause catches; every other exception
is some other class, distinguished here by a tag. -/
inductive PyErr where
  | streamClosedError : PyErr
  | otherError (tag : Nat) : PyErr
deriving DecidableEq, Repr

/-- Byte strings as the relay sees them: `stream.read` can return a `bytes`
or a `bytearray` object; the payload is the byte content. -/
inductive PyBytes where
  | bytes (content : List Nat) : PyBytes
  | bytearray (content : List Nat) : PyBytes
deriving DecidableEq, Repr

/-- Byte content of a `bytes` or `bytearray` object. -/
def PyBytes.data : PyBytes → List Nat
  | .bytes d => d
  | .bytearray d => d

/-- Whether the object is a `bytes` object (not a `bytearray`). -/
def PyBytes.isBytesObj : PyBytes → Bool
  | .bytes _ => true
  | .bytearray _ => false

/-- The `isinstance(chunk, bytearray)` conversion in `write_stream`:
a `bytearray` is replaced by a `bytes` object of equal content. -/
def toBytesObj : PyBytes → PyBytes
  | .bytearray d => .bytes d
  | b => b

/-- Oracle for the downstream sink: the outcome of the `i`-th `self.write`
call and of the `i`-th `await self.flush()` call (`none` is success,
`some e` means the call raises `e`). -/
structure DownOracle where
  writeRes : Nat → Option PyErr
  flushRes : Nat → Option PyErr

/-- How one `write_stream` invocation ended: `exhausted` is the `break` on an
empty chunk; the `...Closed` cases are a `StreamClosedError` raised at the
read, write or flush and caught by the `except` clause (a normal return); the
`...Raised` cases are any other exception escaping to the caller. -/
inductive EndReason where
  | exhausted : EndReason
  | readClosed : EndReason
  | writeClosed : EndReason
  | flushClosed : EndReason
  | readRaised (e : PyErr) : EndReason
  | writeRaised (e : PyErr) : EndReason
  | flushRaised (e : PyErr) : EndReason
deriving DecidableEq, Repr

/-- Whether the invocation returns normally to the caller (the `break` path
and every caught `StreamClosedError`) rather than raising. -/
def EndReason.returnsNormally : EndReason → Bool
  | .exhausted | .readClosed | .writeClosed | .flushClosed => true
  | _ => false

/-- Observable trace of one `write_stream` invocation: how it ended, the
final value of the `bytes_downloaded` accumulator, the chunks passed to
`self.write` in order, and how many read, write and flush calls ran. -/
structure RelayTrace where
  endedBy : EndReason
  bytesDownloaded : Nat
  written : List PyBytes
  readsAttempted : Nat
  writesAttempted : Nat
  flushesCompleted : Nat
deriving DecidableEq, Repr

/-- One iteration of the `while True` loop of `write_stream`, at iteration
index `i` with accumulator `bytes` and already-written chunks `written`
(most recent first).  `reads` lists the results of the successive
`await stream.read(CHUNK_SIZE)` calls; past its end the stream is exhausted
and a read returns an empty chunk.  The body mirrors the Python source:
read; `break` on an empty (falsy) chunk; convert a `bytearray` to `bytes`;
`self.write(chunk)`; `bytes_downloaded += len(chunk)`; `await self.flush()`;
and the surrounding `try`/`except tornado.iostream.StreamClosedError` turns a
`StreamClosedError` raised anywhere in the body into a plain `return`. -/
def writeStreamGo (down : DownOracle) :
    List (Except PyErr PyBytes) → Nat → Nat → List PyBytes → RelayTrace
  | [], i, bytes, written =>
    ⟨.exhausted, bytes, written.reverse, i + 1, i, i⟩
  | .error e :: _, i, bytes, written =>
    if e = .streamClosedError then ⟨.readClosed, bytes, written.reverse, i + 1, i, i⟩
    else ⟨.readRaised e, bytes, written.reverse, i + 1, i, i⟩
  | .ok chunk :: rest, i, bytes, written =>
    if chunk.data.isEmpty then ⟨.exhausted, bytes, written.reverse, i + 1, i, i⟩
    else
      match down.writeRes i with
      | some e =>
        if e = .streamClosedError then
          ⟨.writeClosed, bytes, written.reverse, i + 1, i + 1, i⟩
        else ⟨.writeRaised e, bytes, written.reverse, i + 1, i + 1, i⟩
      | none =>
        match down.flushRes i with
        | some e =>
          if e = .streamClosedError then
            ⟨.flushClosed, bytes + (toBytesObj chunk).data.length,
              (toBytesObj chunk :: written).reverse, i + 1, i + 1, i⟩
          else
            ⟨.flushRaised e, bytes + (toBytesObj chunk).data.length,
              (toBytesObj chunk :: written).reverse, i + 1, i + 1, i⟩
        | none =>
          writeStreamGo down rest (i + 1)
            (bytes + (toBytesObj chunk).data.length) (toBytesObj chunk :: written)

/-- Translation of `UtilMixin.write_stream`: run the relay loop from a fresh
handler (`bytes_downloaded = 0`, nothing written yet). -/
def write_stream (reads : List (Except PyErr PyBytes)) (down : DownOracle) :
    RelayTrace :=
  writeStreamGo down reads 0 0 []

/-- Total byte length of a list of chunks. -/
def bytesLen (l : List PyBytes) : Nat := (l.map (fun c => c.data.length)).sum

/-- The non-empty successfully read chunks among a list of read results,
as byte contents in order. -/
def okNonEmptyData (rs : List (Except PyErr PyBytes)) : List (List Nat) :=
  rs.filterMap fun r =>
    match r with
    | .ok c => if c.data.isEmpty then none else some c.data
    | .error _ => none

/-- Modelled from the spec: a well-behaved upstream byte stream holding the
byte sequence `l`, read `C` bytes at a time — each read returns the next
`min C remaining` bytes, then a zero-length result at end of stream (the
`ReadableByteStream` collaborator is not in the repository source). -/
def chunksOfAux (C : Nat) : Nat → List Nat → List (List Nat)
  | 0, _ => []
  | _ + 1, [] => []
  | fuel + 1, d :: ds => (d :: ds).take C :: chunksOfAux C fuel ((d :: ds).drop C)

/-- The chunk decomposition of the byte sequence `l` into pieces of at most
`C` bytes, via `chunksOfAux` with enough fuel. -/
def chunksOf (C : Nat) (l : List Nat) : List (List Nat) :=
  chunksOfAux C l.length l

/-- The read results produced by a well-behaved upstream holding `l`,
read in chunks of `C`. -/
def bufferReads (C : Nat) (l : List Nat) : List (Except PyErr PyBytes) :=
  (chunksOf C l).map fun c => Except.ok (PyBytes.bytes c)

/-! ## Parser lemmas -/

theorem parseNatAux_digits : ∀ (cs : List Char) (acc n : Nat),
    parseNatAux cs acc = some n → ∀ c ∈ cs, isDigitChar c = true := by
  intro cs
  induction cs with
  | nil => intro acc n _ c hc; exact absurd hc (List.not_mem_nil c)
  | cons d ds ih =>
    intro acc n h c hc
    by_cases hd : isDigitChar d = true
    · simp only [parseNatAux, hd, if_true] at h
      rcases List.mem_cons.mp hc with rfl | hmem
      · exact hd
      · exact ih _ n h c hmem
    · simp [parseNatAux, hd] at h

theorem isDigitChar_ne_dash {c : Char} (h : isDigitChar c = true) : c ≠ '-' := by
  intro hEq
  subst hEq
  exact absurd h (by decide)

theorem splitAtFirstDash_append : ∀ (sa sb : List Char),
    (∀ c ∈ sa, c ≠ '-') → splitAtFirstDash (sa ++ '-' :: sb) = some (sa, sb) := by
  intro sa
  induction sa with
  | nil => intro sb _; simp [splitAtFirstDash]
  | cons c cs ih =>
    intro sb h
    have hc : c ≠ '-' := h c (List.mem_cons_self c cs)
    have ih' := ih sb (fun x hx => h x (List.mem_cons_of_mem c hx))
    simp [splitAtFirstDash, hc, ih']

theorem parsePart_some (cs : List Char) (v : Int)
    (h : parsePart cs = some (some v)) :
    ∃ n : Nat, parseNatAux cs 0 = some n ∧ v = (n : Int) := by
  cases cs with
  | nil => exact absurd h (by simp [parsePart])
  | cons c cs' =>
    simp only [parsePart] at h
    cases hn : parseNatAux (c :: cs') 0 with
    | none => rw [hn] at h; exact absurd h (by simp)
    | some n => rw [hn] at h; simp at h; exact ⟨n, rfl, h.symm⟩

theorem parsePart_digits (cs : List Char) (v : Int)
    (h : parsePart cs = some (some v)) : ∀ c ∈ cs, isDigitChar c = true := by
  obtain ⟨n, hn, _⟩ := parsePart_some cs v h
  exact parseNatAux_digits cs 0 n hn

theorem parse_request_range_of_stage_ok (h : Option String) (A E : Int)
    (hst : parseRequestRangeSyntactic h = some (some A, some E))
    (hA : ¬ A < 0) (hE : ¬ E - 1 < A) :
    parse_request_range h = .ok A (some (E - 1)) := by
  unfold parse_request_range
  rw [hst]
  simp [hA, hE]

theorem parse_request_range_of_stage_okNoEnd (h : Option String) (A : Int)
    (hst : parseRequestRangeSyntactic h = some (some A, none))
    (hA : ¬ A < 0) :
    parse_request_range h = .ok A none := by
  unfold parse_request_range
  rw [hst]
  simp [hA]

theorem parse_request_range_of_stage_noStart (h : Option String) (E : Int)
    (hst : parseRequestRangeSyntactic h = some (none, some E)) :
    parse_request_range h =
      .invalidHeaderError ("Unsupported Range header format: " ++ formatRangeHeader h) := by
  unfold parse_request_range
  rw [hst]

theorem parse_request_range_of_stage_negStart (h : Option String) (A : Int)
    (en : Option Int)
    (hst : parseRequestRangeSyntactic h = some (some A, en))
    (hA : A < 0) :
    parse_request_range h =
      .invalidHeaderError ("Unsupported Range header format: " ++ formatRangeHeader h) := by
  unfold parse_request_range
  rw [hst]
  simp [hA]

theorem parse_request_range_of_stage_backwards (h : Option String) (A E : Int)
    (hst : parseRequestRangeSyntactic h = some (some A, some E))
    (hA : ¬ A < 0) (hE : E - 1 < A) :
    parse_request_range h =
      .invalidHeaderError ("Unsupported Range header format: " ++ formatRangeHeader h) := by
  unfold parse_request_range
  rw [hst]
  simp [hA, hE]

theorem parse_request_range_of_stage_none (h : Option String)
    (hst : parseRequestRangeSyntactic h = none) :
    parse_request_range h = .noRange := by
  unfold parse_request_range
  rw [hst]

theorem parse_request_range_of_stage_bothAbsent (h : Option String)
    (hst : parseRequestRangeSyntactic h = some (none, none)) :
    parse_request_range h = .noRange := by
  unfold parse_request_range
  rw [hst]

theorem parseRangeChars_valid_pair (sa sb : List Char) (a b : Nat)
    (ha : parsePart sa = some (some (a : Int)))
    (hb : parsePart sb = some (some (b : Int))) :
    parseRangeChars ("bytes=".data ++ (sa ++ '-' :: sb)) =
      some (some (a : Int), some ((b : Int) + 1)) := by
  have hsplit : splitAtFirstDash (sa ++ '-' :: sb) = some (sa, sb) :=
    splitAtFirstDash_append sa sb
      (fun c hc => isDigitChar_ne_dash (parsePart_digits sa _ ha c hc))
  have hstrip : stripBytesEq ("bytes=".data ++ (sa ++ '-' :: sb)) =
      some (sa ++ '-' :: sb) := rfl
  simp only [parseRangeChars, hstrip, hsplit, ha, hb, Option.map_some']

/-! ## Claim theorems: range parsing -/

/-- C1: for every header string of the form `bytes=a-b` where the two parts
are decimal representations of integers `a` and `b` with `0 <= a <= b`,
`parse_request_range` returns the inclusive interval `(a, b)`, subtracting
one from the exclusive upper bound produced by the syntactic stage. -/
theorem parse_request_range_valid_pair (sa sb : List Char) (a b : Nat)
    (ha : parsePart sa = some (some (a : Int)))
    (hb : parsePart sb = some (some (b : Int)))
    (hab : a ≤ b) :
    parse_request_range (some ⟨"bytes=".data ++ (sa ++ '-' :: sb)⟩) =
      .ok (a : Int) (some (b : Int)) := by
  have hstage :
      parseRequestRangeSyntactic (some ⟨"bytes=".data ++ (sa ++ '-' :: sb)⟩) =
        some (some (a : Int), some ((b : Int) + 1)) := by
    have : parseRequestRangeSyntactic (some ⟨"bytes=".data ++ (sa ++ '-' :: sb)⟩) =
        parseRangeChars ("bytes=".data ++ (sa ++ '-' :: sb)) := rfl
    rw [this, parseRangeChars_valid_pair sa sb a b ha hb]
  have hA : ¬ (a : Int) < 0 := by omega
  have hE : ¬ ((b : Int) + 1) - 1 < (a : Int) := by omega
  have h := parse_request_range_of_stage_ok _ _ _ hstage hA hE
  have hsub : ((b : Int) + 1) - 1 = (b : Int) := by ring
  rw [hsub] at h
  exact h

/-- Witness for C1 at the spec's example `bytes=0-0`, which yields `(0, 0)`. -/
theorem parse_request_range_valid_pair_witness :
    parse_request_range (some "bytes=0-0") = .ok 0 (some 0) := by
  have h := parse_request_range_valid_pair ['0'] ['0'] 0 0
    (by decide) (by decide) (Nat.le_refl 0)
  have heq : (⟨"bytes=".data ++ (['0'] ++ '-' :: ['0'])⟩ : String) = "bytes=0-0" := by
    decide
  rw [heq] at h
  simpa using h

/-- C5 counterexample: the header `bytes=-` makes the syntactic stage yield a
range whose start is absent, yet `parse_request_range` returns no range rather
than raising `InvalidHeaderError`, because both parts are absent. -/
theorem parse_request_range_absent_start_counterexample :
    parseRequestRangeSyntactic (some "bytes=-") = some (none, none) ∧
    parse_request_range (some "bytes=-") = .noRange ∧
    parse_request_range (some "bytes=-") ≠
      .invalidHeaderError "Unsupported Range header format: bytes=-" := by
  refine ⟨by decide, by decide, by decide⟩

/-- C5 (amended): for every header string on which the syntactic stage yields
a range whose start is absent or negative — except when both start and end
are absent, which yields no range — `parse_request_range` raises
`InvalidHeaderError` with message
`"Unsupported Range header format: "` followed by the original header text. -/
theorem parse_request_range_absent_or_negative_start (s : String)
    (st en : Option Int)
    (hst : parseRequestRangeSyntactic (some s) = some (st, en))
    (habs : st = none ∨ ∃ v, st = some v ∧ v < 0)
    (hnb : ¬ (st = none ∧ en = none)) :
    parse_request_range (some s) =
      .invalidHeaderError ("Unsupported Range header format: " ++ s) := by
  rcases habs with rfl | ⟨v, rfl, hv⟩
  · cases en with
    | none => exact absurd ⟨rfl, rfl⟩ hnb
    | some E =>
      have h := parse_request_range_of_stage_noStart (some s) E hst
      simpa [formatRangeHeader] using h
  · have h := parse_request_range_of_stage_negStart (some s) v en hst hv
    simpa [formatRangeHeader] using h

/-- Witness for C5 at the spec's example, the suffix form `bytes=-5`. -/
theorem parse_request_range_absent_or_negative_start_witness :
    parse_request_range (some "bytes=-5") =
      .invalidHeaderError "Unsupported Range header format: bytes=-5" := by
  have h := parse_request_range_absent_or_negative_start "bytes=-5" none (some 6)
    (by decide) (Or.inl rfl) (by simp)
  have hmsg : "Unsupported Range header format: " ++ "bytes=-5" =
      "Unsupported Range header format: bytes=-5" := rfl
  rw [hmsg] at h
  exact h

/-- C6: for every header whose syntactic stage yields a present non-negative
start and a present end such that after converting the exclusive upper bound
to an inclusive index the end is strictly less than the start,
`parse_request_range` raises `InvalidHeaderError` with the same
`"Unsupported Range header format"` message. -/
theorem parse_request_range_end_before_start (s : String) (A E : Int)
    (hst : parseRequestRangeSyntactic (some s) = some (some A, some E))
    (hA : 0 ≤ A) (hlt : E - 1 < A) :
    parse_request_range (some s) =
      .invalidHeaderError ("Unsupported Range header format: " ++ s) := by
  have h := parse_request_range_of_stage_backwards (some s) A E hst
    (Int.not_lt.mpr hA) hlt
  simpa [formatRangeHeader] using h

/-- Witness for C6 at the spec's example `bytes=10-5`. -/
theorem parse_request_range_end_before_start_witness :
    parse_request_range (some "bytes=10-5") =
      .invalidHeaderError "Unsupported Range header format: bytes=10-5" := by
  have h := parse_request_range_end_before_start "bytes=10-5" 10 6
    (by decide) (by decide) (by decide)
  have hmsg : "Unsupported Range header format: " ++ "bytes=10-5" =
      "Unsupported Range header format: bytes=10-5" := rfl
  rw [hmsg] at h
  exact h

/-- C7: whenever the syntactic stage yields no range (absent header, empty or
unrecognizable text, multi-range header) and whenever both start and end are
absent, `parse_request_range` returns no range and raises nothing; in
particular for `None`, `""`, `"garbage"` and `"bytes=0-1,5-6"`. -/
theorem parse_request_range_noRange_cases :
    (∀ h, parseRequestRangeSyntactic h = none → parse_request_range h = .noRange) ∧
    (∀ s, parseRequestRangeSyntactic (some s) = some (none, none) →
      parse_request_range (some s) = .noRange) ∧
    parse_request_range none = .noRange ∧
    parse_request_range (some "") = .noRange ∧
    parse_request_range (some "garbage") = .noRange ∧
    parse_request_range (some "bytes=0-1,5-6") = .noRange := by
  refine ⟨fun h hst => parse_request_range_of_stage_none h hst,
    fun s hst => parse_request_range_of_stage_bothAbsent (some s) hst,
    by decide, by decide, by decide, by decide⟩

/-- Witness for C7: the multi-range header from the spec is rejected by the
syntactic stage and thus parses as no range. -/
theorem parse_request_range_noRange_cases_witness :
    parseRequestRangeSyntactic (some "bytes=0-1,5-6") = none ∧
    parse_request_range (some "bytes=0-1,5-6") = .noRange :=
  ⟨by decide, parse_request_range_noRange_cases.1 (some "bytes=0-1,5-6") (by decide)⟩

/-! ## Relay lemmas -/

theorem toBytesObj_data (c : PyBytes) : (toBytesObj c).data = c.data := by
  cases c <;> rfl

theorem toBytesObj_isBytesObj (c : PyBytes) : (toBytesObj c).isBytesObj = true := by
  cases c <;> rfl

theorem bytesLen_cons (c : PyBytes) (w : List PyBytes) :
    bytesLen (c :: w) = c.data.length + bytesLen w := by
  simp [bytesLen]

theorem bytesLen_nil : bytesLen [] = 0 := rfl

theorem bytesLen_append (u v : List PyBytes) :
    bytesLen (u ++ v) = bytesLen u + bytesLen v := by
  simp [bytesLen]

theorem bytesLen_reverse (w : List PyBytes) : bytesLen w.reverse = bytesLen w := by
  simp [bytesLen, List.sum_reverse]

theorem writeStreamGo_reads_lt (down : DownOracle) :
    ∀ (reads : List (Except PyErr PyBytes)) (i b : Nat) (w : List PyBytes),
    i < (writeStreamGo down reads i b w).readsAttempted := by
  intro reads
  induction reads with
  | nil => intro i b w; exact Nat.lt_succ_self i
  | cons r rest ih =>
    intro i b w
    cases r with
    | error e =>
      by_cases he : e = PyErr.streamClosedError <;> simp [writeStreamGo, he]
    | ok chunk =>
      by_cases hemp : chunk.data.isEmpty = true
      · simp [writeStreamGo, hemp]
      · cases hw : down.writeRes i with
        | some e =>
          by_cases he : e = PyErr.streamClosedError <;>
            simp [writeStreamGo, hemp, hw, he]
        | none =>
          cases hf : down.flushRes i with
          | some e =>
            by_cases he : e = PyErr.streamClosedError <;>
              simp [writeStreamGo, hemp, hw, hf, he]
          | none =>
            simp only [writeStreamGo, hemp, hw, hf]
            simp only [Bool.not_eq_true] at hemp
            simp only [hemp, Bool.false_eq_true, if_false]
            exact Nat.lt_trans (Nat.lt_succ_self i) (ih (i + 1) _ _)

theorem writeStreamGo_bytes_eq (down : DownOracle) :
    ∀ (reads : List (Except PyErr PyBytes)) (i b : Nat) (w : List PyBytes),
    b = bytesLen w →
    (writeStreamGo down reads i b w).bytesDownloaded =
      bytesLen (writeStreamGo down reads i b w).written := by
  intro reads
  induction reads with
  | nil => intro i b w hb; simpa [writeStreamGo, bytesLen_reverse] using hb
  | cons r rest ih =>
    intro i b w hb
    cases r with
    | error e =>
      by_cases he : e = PyErr.streamClosedError <;>
        simpa [writeStreamGo, he, bytesLen_reverse] using hb
    | ok chunk =>
      by_cases hemp : chunk.data.isEmpty = true
      · simpa [writeStreamGo, hemp, bytesLen_reverse] using hb
      · cases hw : down.writeRes i with
        | some e =>
          by_cases he : e = PyErr.streamClosedError <;>
            simpa [writeStreamGo, hemp, hw, he, bytesLen_reverse] using hb
        | none =>
          cases hf : down.flushRes i with
          | some e =>
            by_cases he : e = PyErr.streamClosedError <;>
              simp [writeStreamGo, hemp, hw, hf, he, bytesLen_append,
                bytesLen_reverse, bytesLen_cons, bytesLen_nil, hb]
          | none =>
            simp only [writeStreamGo, hemp, hw, hf]
            simp only [Bool.not_eq_true] at hemp
            simp only [hemp, Bool.false_eq_true, if_false]
            exact ih (i + 1) _ _ (by simp [bytesLen_cons, hb]; omega)

theorem writeStreamGo_counters (down : DownOracle) :
    ∀ (reads : List (Except PyErr PyBytes)) (i b : Nat) (w : List PyBytes),
    (writeStreamGo down reads i b w).readsAttempted =
      (writeStreamGo down reads i b w).flushesCompleted + 1 ∧
    (((writeStreamGo down reads i b w).endedBy = .writeClosed ∨
      (writeStreamGo down reads i b w).endedBy = .flushClosed) →
      (writeStreamGo down reads i b w).readsAttempted =
        (writeStreamGo down reads i b w).writesAttempted) := by
  intro reads
  induction reads with
  | nil => intro i b w; exact ⟨rfl, by intro h; rcases h with h | h <;> simp [writeStreamGo] at h⟩
  | cons r rest ih =>
    intro i b w
    cases r with
    | error e =>
      by_cases he : e = PyErr.streamClosedError <;>
        simp [writeStreamGo, he]
    | ok chunk =>
      by_cases hemp : chunk.data.isEmpty = true
      · simp [writeStreamGo, hemp]
      · cases hw : down.writeRes i with
        | some e =>
          by_cases he : e = PyErr.streamClosedError <;>
            simp [writeStreamGo, hemp, hw, he]
        | none =>
          cases hf : down.flushRes i with
          | some e =>
            by_cases he : e = PyErr.streamClosedError <;>
              simp [writeStreamGo, hemp, hw, hf, he]
          | none =>
            simp only [writeStreamGo, hemp, hw, hf]
            simp only [Bool.not_eq_true] at hemp
            simp only [hemp, Bool.false_eq_true, if_false]
            exact ih (i + 1) _ _

theorem writeStreamGo_written_bytesObj (down : DownOracle) :
    ∀ (reads : List (Except PyErr PyBytes)) (i b : Nat) (w : List PyBytes),
    (∀ c ∈ w, c.isBytesObj = true) →
    ∀ c ∈ (writeStreamGo down reads i b w).written, c.isBytesObj = true := by
  intro reads
  induction reads with
  | nil =>
    intro i b w hw c hc
    simp only [writeStreamGo, List.mem_reverse] at hc
    exact hw c hc
  | cons r rest ih =>
    intro i b w hwAll
    cases r with
    | error e =>
      by_cases he : e = PyErr.streamClosedError <;>
        · intro c hc
          simp [writeStreamGo, he] at hc
          exact hwAll c hc
    | ok chunk =>
      by_cases hemp : chunk.data.isEmpty = true
      · intro c hc
        simp [writeStreamGo, hemp] at hc
        exact hwAll c hc
      · have hnext : ∀ c ∈ toBytesObj chunk :: w, c.isBytesObj = true := by
          intro c hc
          rcases List.mem_cons.mp hc with rfl | hc
          · exact toBytesObj_isBytesObj chunk
          · exact hwAll c hc
        cases hw : down.writeRes i with
        | some e =>
          by_cases he : e = PyErr.streamClosedError <;>
            · intro c hc
              simp [writeStreamGo, hemp, hw, he] at hc
              exact hwAll c hc
        | none =>
          cases hf : down.flushRes i with
          | some e =>
            by_cases he : e = PyErr.streamClosedError <;>
              · intro c hc
                simp [writeStreamGo, hemp, hw, hf, he] at hc
                rcases hc with hc | rfl
                · exact hwAll c hc
                · exact toBytesObj_isBytesObj chunk
          | none =>
            simp only [writeStreamGo, hemp, hw, hf]
            simp only [Bool.not_eq_true] at hemp
            simp only [hemp, Bool.false_eq_true, if_false]
            exact ih (i + 1) _ _ hnext

theorem okNonEmptyData_nil : okNonEmptyData [] = [] := rfl

theorem okNonEmptyData_cons_err (e : PyErr) (rs : List (Except PyErr PyBytes)) :
    okNonEmptyData (Except.error e :: rs) = okNonEmptyData rs := rfl

theorem okNonEmptyData_cons_empty (c : PyBytes) (rs : List (Except PyErr PyBytes))
    (hc : c.data.isEmpty = true) :
    okNonEmptyData (Except.ok c :: rs) = okNonEmptyData rs := by
  have hc' : c.data = [] := by simpa using hc
  simp [okNonEmptyData, hc']

theorem okNonEmptyData_cons_ok (c : PyBytes) (rs : List (Except PyErr PyBytes))
    (hc : c.data.isEmpty = false) :
    okNonEmptyData (Except.ok c :: rs) = c.data :: okNonEmptyData rs := by
  have hc' : ¬ c.data = [] := by simpa using hc
  simp [okNonEmptyData, hc']

theorem writeStreamGo_written_data (down : DownOracle)
    (hW : ∀ j, down.writeRes j = none) :
    ∀ (reads : List (Except PyErr PyBytes)) (i b : Nat) (w : List PyBytes),
    (writeStreamGo down reads i b w).written.map PyBytes.data =
      w.reverse.map PyBytes.data ++
        okNonEmptyData
          (reads.take ((writeStreamGo down reads i b w).readsAttempted - i)) := by
  intro reads
  induction reads with
  | nil =>
    intro i b w
    simp [writeStreamGo, okNonEmptyData_nil]
  | cons r rest ih =>
    intro i b w
    cases r with
    | error e =>
      by_cases he : e = PyErr.streamClosedError <;>
        simp [writeStreamGo, he, Nat.add_sub_cancel_left, List.take_succ_cons,
          List.take_zero, okNonEmptyData_cons_err, okNonEmptyData_nil]
    | ok chunk =>
      by_cases hemp : chunk.data.isEmpty = true
      · simp [writeStreamGo, hemp, Nat.add_sub_cancel_left, List.take_succ_cons,
          List.take_zero, okNonEmptyData_cons_empty chunk _ hemp, okNonEmptyData_nil]
      · have hempF : chunk.data.isEmpty = false := by
          simpa [Bool.not_eq_true] using hemp
        cases hf : down.flushRes i with
        | some e =>
          by_cases he : e = PyErr.streamClosedError <;>
            simp [writeStreamGo, hemp, hempF, hW i, hf, he,
              Nat.add_sub_cancel_left, List.take_succ_cons, List.take_zero,
              okNonEmptyData_cons_ok chunk _ hempF, okNonEmptyData_nil,
              toBytesObj_data]
        | none =>
          simp only [writeStreamGo, hW i, hf]
          simp only [Bool.not_eq_true] at hemp
          simp only [hemp, Bool.false_eq_true, if_false]
          rw [ih (i + 1) (b + (toBytesObj chunk).data.length) (toBytesObj chunk :: w)]
          have hlt := writeStreamGo_reads_lt down rest (i + 1)
            (b + (toBytesObj chunk).data.length) (toBytesObj chunk :: w)
          have hsub : (writeStreamGo down rest (i + 1)
              (b + (toBytesObj chunk).data.length) (toBytesObj chunk :: w)).readsAttempted - i =
              ((writeStreamGo down rest (i + 1)
              (b + (toBytesObj chunk).data.length) (toBytesObj chunk :: w)).readsAttempted - (i + 1)) + 1 := by
            omega
          rw [hsub, List.take_succ_cons, okNonEmptyData_cons_ok chunk _ hempF]
          simp [toBytesObj_data]

theorem writeStreamGo_allOk (down : DownOracle)
    (hW : ∀ j, down.writeRes j = none) (hF : ∀ j, down.flushRes j = none) :
    ∀ (chunks : List (List Nat)), (∀ c ∈ chunks, c ≠ []) →
    ∀ (i b : Nat) (w : List PyBytes),
    writeStreamGo down (chunks.map fun c => Except.ok (PyBytes.bytes c)) i b w =
      ⟨.exhausted, b + (chunks.map List.length).sum,
        w.reverse ++ chunks.map PyBytes.bytes,
        i + chunks.length + 1, i + chunks.length, i + chunks.length⟩ := by
  intro chunks
  induction chunks with
  | nil => intro _ i b w; simp [writeStreamGo]
  | cons c cs ih =>
    intro hne i b w
    have hc : c ≠ [] := hne c (List.mem_cons_self c cs)
    have hempty : (PyBytes.bytes c).data.isEmpty = false := by
      cases c with
      | nil => exact absurd rfl hc
      | cons x xs => rfl
    simp only [List.map_cons, writeStreamGo, hempty, Bool.false_eq_true,
      if_false, hW i, hF i]
    rw [ih (fun d hd => hne d (List.mem_cons_of_mem c hd)) (i + 1)
      (b + (toBytesObj (PyBytes.bytes c)).data.length) (toBytesObj (PyBytes.bytes c) :: w)]
    simp [RelayTrace.mk.injEq, toBytesObj, PyBytes.data]
    omega

theorem ceilDiv_step (C K : Nat) (hC : 0 < C) (hK : 0 < K) :
    (K + C - 1) / C = (K - C + C - 1) / C + 1 := by
  have h1 : K + C - 1 = (K - 1) + C := by omega
  rw [h1, Nat.add_div_right _ hC]
  rcases Nat.lt_or_ge K (C + 1) with hKC | hKC
  · have h2 : K - C = 0 := by omega
    rw [h2]
    have h3 : (K - 1) / C = 0 := Nat.div_eq_of_lt (by omega)
    have h4 : (0 + C - 1) / C = 0 := Nat.div_eq_of_lt (by omega)
    rw [h3, h4]
  · have h2 : K - C + C - 1 = (K - C - 1) + C := by omega
    rw [h2, Nat.add_div_right _ hC]
    have h3 : K - 1 = (K - C - 1) + C := by omega
    rw [h3, Nat.add_div_right _ hC]

theorem chunksOfAux_spec (C : Nat) (hC : 0 < C) :
    ∀ (fuel : Nat) (l : List Nat), l.length ≤ fuel →
      ((chunksOfAux C fuel l).map List.length).sum = l.length ∧
      (chunksOfAux C fuel l).length = (l.length + C - 1) / C ∧
      (∀ c ∈ chunksOfAux C fuel l, c ≠ []) := by
  intro fuel
  induction fuel with
  | zero =>
    intro l hl
    have hnil : l = [] := List.length_eq_zero.mp (Nat.le_zero.mp hl)
    subst hnil
    have hz : (C - 1) / C = 0 := Nat.div_eq_of_lt (by omega)
    refine ⟨rfl, by simp [chunksOfAux, hz], by simp [chunksOfAux]⟩
  | succ n ih =>
    intro l hl
    cases l with
    | nil =>
      have hz : (C - 1) / C = 0 := Nat.div_eq_of_lt (by omega)
      refine ⟨rfl, by simp [chunksOfAux, hz], by simp [chunksOfAux]⟩
    | cons d ds =>
      have hdrop : ((d :: ds).drop C).length ≤ n := by
        simp only [List.length_drop, List.length_cons]
        have := hl
        simp only [List.length_cons] at this
        omega
      obtain ⟨hsum, hlen, hne⟩ := ih _ hdrop
      have hK : 0 < (d :: ds).length := by simp
      refine ⟨?_, ?_, ?_⟩
      · simp only [chunksOfAux, List.map_cons, List.sum_cons, hsum,
          List.length_take, List.length_drop, List.length_cons]
        omega
      · simp only [chunksOfAux, List.length_cons, hlen, List.length_drop]
        conv_rhs => rw [ceilDiv_step C (ds.length + 1) hC (by omega)]
      · intro c hc
        simp only [chunksOfAux, List.mem_cons] at hc
        rcases hc with rfl | hc
        · cases C with
          | zero => exact absurd hC (by omega)
          | succ m => simp [List.take_cons]
        · exact hne c hc

theorem chunksOf_spec (C : Nat) (hC : 0 < C) (l : List Nat) :
    ((chunksOf C l).map List.length).sum = l.length ∧
    (chunksOf C l).length = (l.length + C - 1) / C ∧
    (∀ c ∈ chunksOf C l, c ≠ []) :=
  chunksOfAux_spec C hC l.length l (Nat.le_refl _)

theorem writeStreamGo_upstream_error (down : DownOracle) (e : PyErr)
    (rest : List (Except PyErr PyBytes))
    (hW : ∀ j, down.writeRes j = none) (hF : ∀ j, down.flushRes j = none) :
    ∀ (pre : List (Except PyErr PyBytes)),
    (∀ r ∈ pre, ∃ c, r = Except.ok c ∧ c.data.isEmpty = false) →
    ∀ (i b : Nat) (w : List PyBytes),
    (writeStreamGo down (pre ++ Except.error e :: rest) i b w).endedBy =
      if e = PyErr.streamClosedError then .readClosed else .readRaised e := by
  intro pre
  induction pre with
  | nil =>
    intro _ i b w
    by_cases he : e = PyErr.streamClosedError <;>
      simp [writeStreamGo, he]
  | cons r pre' ih =>
    intro hpre i b w
    obtain ⟨c, rfl, hc⟩ := hpre r (List.mem_cons_self r pre')
    simp only [List.cons_append, writeStreamGo, hc, Bool.false_eq_true, if_false,
      hW i, hF i]
    exact ih (fun x hx => hpre x (List.mem_cons_of_mem _ hx)) (i + 1) _ _

/-! ## Claim theorems: streaming relay -/

/-- C2: when the upstream is a well-behaved stream holding exactly `K = |data|`
bytes read in chunks of `C > 0` and the downstream never fails, the relay ends
`Exhausted`, the `bytes_downloaded` accumulator equals `K`, and the number of
`self.write` calls is `ceil(K / C)` (which is `0` when `K = 0`). -/
theorem write_stream_exhausts_buffer (C : Nat) (data : List Nat)
    (down : DownOracle) (hC : 0 < C)
    (hW : ∀ i, down.writeRes i = none) (hF : ∀ i, down.flushRes i = none) :
    (write_stream (bufferReads C data) down).endedBy = .exhausted ∧
    (write_stream (bufferReads C data) down).bytesDownloaded = data.length ∧
    (write_stream (bufferReads C data) down).writesAttempted =
      (data.length + C - 1) / C := by
  obtain ⟨hsum, hlen, hne⟩ := chunksOf_spec C hC data
  unfold write_stream bufferReads
  rw [writeStreamGo_allOk down hW hF (chunksOf C data) hne 0 0 []]
  simp [hsum, hlen]

/-- Witness for C2: five bytes in chunks of two end exhausted with three
writes (`ceil(5 / 2) = 3`) and five bytes accounted. -/
theorem write_stream_exhausts_buffer_witness :
    (write_stream (bufferReads 2 [1, 2, 3, 4, 5])
      ⟨fun _ => none, fun _ => none⟩).endedBy = .exhausted ∧
    (write_stream (bufferReads 2 [1, 2, 3, 4, 5])
      ⟨fun _ => none, fun _ => none⟩).bytesDownloaded = 5 ∧
    (write_stream (bufferReads 2 [1, 2, 3, 4, 5])
      ⟨fun _ => none, fun _ => none⟩).writesAttempted = 3 :=
  write_stream_exhausts_buffer 2 [1, 2, 3, 4, 5] ⟨fun _ => none, fun _ => none⟩
    (by decide) (fun _ => rfl) (fun _ => rfl)

/-- C3: whenever the relay ends because a downstream write or flush raised
`StreamClosedError`, `write_stream` returns normally (the exception is caught,
nothing is surfaced to the caller) and `bytes_downloaded` equals the total
length of the chunks the downstream accepted. -/
theorem write_stream_peer_disconnect (reads : List (Except PyErr PyBytes))
    (down : DownOracle)
    (h : (write_stream reads down).endedBy = .writeClosed ∨
      (write_stream reads down).endedBy = .flushClosed) :
    (write_stream reads down).endedBy.returnsNormally = true ∧
    (write_stream reads down).bytesDownloaded =
      bytesLen (write_stream reads down).written := by
  constructor
  · rcases h with h | h <;> rw [h] <;> rfl
  · exact writeStreamGo_bytes_eq down reads 0 0 [] rfl

/-- Witness for C3: the downstream disconnects at the first flush after
accepting one two-byte chunk; the relay returns normally with count 2. -/
theorem write_stream_peer_disconnect_witness :
    (write_stream [Except.ok (PyBytes.bytes [1, 2]), Except.ok (PyBytes.bytes [3])]
      ⟨fun _ => none, fun i => if i = 0 then some PyErr.streamClosedError else none⟩).endedBy.returnsNormally = true ∧
    (write_stream [Except.ok (PyBytes.bytes [1, 2]), Except.ok (PyBytes.bytes [3])]
      ⟨fun _ => none, fun i => if i = 0 then some PyErr.streamClosedError else none⟩).bytesDownloaded =
      bytesLen (write_stream [Except.ok (PyBytes.bytes [1, 2]), Except.ok (PyBytes.bytes [3])]
        ⟨fun _ => none, fun i => if i = 0 then some PyErr.streamClosedError else none⟩).written :=
  write_stream_peer_disconnect _ _ (Or.inr (by decide))

/-- C4 counterexample: a `StreamClosedError` raised by the very first upstream
read is caught by the relay's `except` clause and yields a normal return, so
an upstream stream-closed error does not propagate to the caller as the claim
states. -/
theorem write_stream_upstream_closed_counterexample :
    (write_stream [Except.error PyErr.streamClosedError]
      ⟨fun _ => none, fun _ => none⟩).endedBy = .readClosed ∧
    (write_stream [Except.error PyErr.streamClosedError]
      ⟨fun _ => none, fun _ => none⟩).endedBy.returnsNormally = true ∧
    (write_stream [Except.error PyErr.streamClosedError]
      ⟨fun _ => none, fun _ => none⟩).bytesDownloaded = 0 :=
  ⟨by decide, by decide, by decide⟩

/-- C4 (amended): an upstream read failure with any error other than
`StreamClosedError` propagates unchanged to the caller (no retry, one read
attempt consumes it); a `StreamClosedError` raised by the upstream read
itself is caught and converted into a normal return. -/
theorem write_stream_upstream_error (pre rest : List (Except PyErr PyBytes))
    (e : PyErr) (down : DownOracle)
    (hpre : ∀ r ∈ pre, ∃ c, r = Except.ok c ∧ c.data.isEmpty = false)
    (hW : ∀ i, down.writeRes i = none) (hF : ∀ i, down.flushRes i = none) :
    (e ≠ PyErr.streamClosedError →
      (write_stream (pre ++ Except.error e :: rest) down).endedBy = .readRaised e ∧
      (write_stream (pre ++ Except.error e :: rest) down).endedBy.returnsNormally = false) ∧
    (e = PyErr.streamClosedError →
      (write_stream (pre ++ Except.error e :: rest) down).endedBy = .readClosed ∧
      (write_stream (pre ++ Except.error e :: rest) down).endedBy.returnsNormally = true) := by
  have hgo := writeStreamGo_upstream_error down e rest hW hF pre hpre 0 0 []
  constructor
  · intro hne
    unfold write_stream
    rw [hgo]
    simp [hne, EndReason.returnsNormally]
  · intro heq
    unfold write_stream
    rw [hgo]
    simp [heq, EndReason.returnsNormally]

/-- Witness for C4: after one good chunk, the upstream read raises an error
that is not `StreamClosedError`; it escapes the relay to the caller. -/
theorem write_stream_upstream_error_witness :
    (write_stream ([Except.ok (PyBytes.bytes [7])] ++
        Except.error (PyErr.otherError 0) :: []) ⟨fun _ => none, fun _ => none⟩).endedBy =
      .readRaised (PyErr.otherError 0) ∧
    (write_stream ([Except.ok (PyBytes.bytes [7])] ++
        Except.error (PyErr.otherError 0) :: []) ⟨fun _ => none, fun _ => none⟩).endedBy.returnsNormally =
      false :=
  (write_stream_upstream_error [Except.ok (PyBytes.bytes [7])] []
    (PyErr.otherError 0) ⟨fun _ => none, fun _ => none⟩
    (by intro r hr; rcases List.mem_singleton.mp hr with rfl; exact ⟨_, rfl, rfl⟩)
    (fun _ => rfl) (fun _ => rfl)).1 (by decide)

/-- C8: the relay loop is strictly sequential — across all runs the number of
read attempts is exactly one more than the number of completed flushes (chunk
`N+1` is never read before chunk `N` was written and its flush finished), and
when a peer disconnect is detected at the write or the flush, the loop stops
with no further read attempted (reads equal write attempts at that point). -/
theorem write_stream_sequential (reads : List (Except PyErr PyBytes))
    (down : DownOracle) :
    (write_stream reads down).readsAttempted =
      (write_stream reads down).flushesCompleted + 1 ∧
    (((write_stream reads down).endedBy = .writeClosed ∨
      (write_stream reads down).endedBy = .flushClosed) →
      (write_stream reads down).readsAttempted =
        (write_stream reads down).writesAttempted) :=
  writeStreamGo_counters down reads 0 0 []

/-- Witness for C8: with a disconnect at the first flush, one read was
attempted, zero flushes completed, and reads equal write attempts. -/
theorem write_stream_sequential_witness :
    (write_stream [Except.ok (PyBytes.bytes [9]), Except.ok (PyBytes.bytes [8])]
      ⟨fun _ => none, fun _ => some PyErr.streamClosedError⟩).readsAttempted =
      (write_stream [Except.ok (PyBytes.bytes [9]), Except.ok (PyBytes.bytes [8])]
        ⟨fun _ => none, fun _ => some PyErr.streamClosedError⟩).flushesCompleted + 1 ∧
    (write_stream [Except.ok (PyBytes.bytes [9]), Except.ok (PyBytes.bytes [8])]
      ⟨fun _ => none, fun _ => some PyErr.streamClosedError⟩).readsAttempted =
      (write_stream [Except.ok (PyBytes.bytes [9]), Except.ok (PyBytes.bytes [8])]
        ⟨fun _ => none, fun _ => some PyErr.streamClosedError⟩).writesAttempted :=
  ⟨(write_stream_sequential _ _).1, (write_stream_sequential _ _).2 (Or.inr (by decide))⟩

/-- C9: provided `self.write` itself never raises (in tornado it only buffers;
disconnects surface at the flush), the sequence of byte strings written
downstream is exactly the sequence of non-empty chunks successfully read
upstream up to the point of termination, in order, none modified, dropped,
duplicated or reordered — and every written object is a `bytes` object (a
`bytearray` chunk is converted to `bytes` of equal content before writing). -/
theorem write_stream_data_fidelity (reads : List (Except PyErr PyBytes))
    (down : DownOracle) (hW : ∀ i, down.writeRes i = none) :
    (write_stream reads down).written.map PyBytes.data =
      okNonEmptyData (reads.take (write_stream reads down).readsAttempted) ∧
    ∀ c ∈ (write_stream reads down).written, c.isBytesObj = true := by
  constructor
  · have h := writeStreamGo_written_data down hW reads 0 0 []
    simpa using h
  · exact writeStreamGo_written_bytesObj down reads 0 0 []
      (fun c hc => absurd hc (List.not_mem_nil c))

/-- Witness for C9: a `bytearray` chunk followed by an upstream error; the
single written object is a `bytes` object with the same content. -/
theorem write_stream_data_fidelity_witness :
    (write_stream [Except.ok (PyBytes.bytearray [5, 6]), Except.error (PyErr.otherError 1)]
      ⟨fun _ => none, fun _ => none⟩).written.map PyBytes.data =
      okNonEmptyData ([Except.ok (PyBytes.bytearray [5, 6]), Except.error (PyErr.otherError 1)].take
        (write_stream [Except.ok (PyBytes.bytearray [5, 6]), Except.error (PyErr.otherError 1)]
          ⟨fun _ => none, fun _ => none⟩).readsAttempted) ∧
    ∀ c ∈ (write_stream [Except.ok (PyBytes.bytearray [5, 6]), Except.error (PyErr.otherError 1)]
      ⟨fun _ => none, fun _ => none⟩).written, c.isBytesObj = true :=
  write_stream_data_fidelity _ ⟨fun _ => none, fun _ => none⟩ (fun _ => rfl)

end WB

example : WB.parse_request_range (some "bytes=0-1") = .ok 0 (some 1) := by decide
example : WB.parse_request_range (some "bytes=0-0") = .ok 0 (some 0) := by decide
example : WB.parse_request_range (some "bytes=5-") = .ok 5 none := by decide
example : WB.parse_request_range (some "") = .noRange := by decide
example : WB.parse_request_range none = .noRange := by decide
example : WB.parse_request_range (some "garbage") = .noRange := by decide
example : WB.parse_request_range (some "bytes=0-1,5-6") = .noRange := by decide
example : WB.parse_request_range (some "bytes=-5") =
    .invalidHeaderError "Unsupported Range header format: bytes=-5" := by decide
example : WB.parse_request_range (some "bytes=10-5") =
    .invalidHeaderError "Unsupported Range header format: bytes=10-5" := by decide
example : WB.parse_request_range (some "bytes=-") = .noRange := by decide

example :
    (WB.write_stream [Except.ok (.bytes [1, 2]), Except.ok (.bytearray [3])]
      ⟨fun _ => none, fun _ => none⟩) =
    ⟨.exhausted, 3, [.bytes [1, 2], .bytes [3]], 3, 2, 2⟩ := by decide

example :
    (WB.write_stream [Except.ok (.bytes [1, 2]), Except.ok (.bytes [3])]
      ⟨fun _ => none, fun i => if i = 0 then some .streamClosedError else none⟩) =
    ⟨.flushClosed, 2, [.bytes [1, 2]], 1, 1, 0⟩ := by decide

example :
    (WB.write_stream [Except.error .streamClosedError]
      ⟨fun _ => none, fun _ => none⟩) =
    ⟨.readClosed, 0, [], 1, 0, 0⟩ := by decide

example : WB.chunksOf 2 [1, 2, 3, 4, 5] = [[1, 2], [3, 4], [5]] := by decide
